import Mathlib

/-!
Verification of the data-acquisition core of the `iotop` rewrite (Rust).

This file shallowly embeds the parts of the source relevant to the frozen
claims:

* `src/taskstats.rs` — the `TaskStats` record with its `delta` /
  `accumulate` / `is_all_zero` operations (saturating u64 arithmetic is
  modelled on `Nat`: `Nat` subtraction is already truncated at zero, and
  saturating addition is `min (a + b) U64MAX`).
* `src/process.rs` — `ThreadInfo`, `ProcessInfo` (with
  `ProcessInfo::update_stats`, the per-process aggregation), and
  `ProcessList::refresh_processes` (the per-tick snapshot assembler),
  modelled as a pure function over an explicit environment `RefreshEnv`
  that stands for the `/proc` filesystem and the netlink taskstats
  connection.
* `src/ioprio.rs` — `Ioprio`, `get_ioprio` and its scheduler fallback.
* `src/proc_reader.rs` — `ProcReader::parse_cmdline` and
  `ProcReader::read_nice`.

Rust `HashMap`s are modelled as association lists (`alookup` / `aupsert`);
all claims proved below are insensitive to iteration order (sums and
saturating sums are commutative, and per-key reasoning goes through
lookup lemmas).  Machine integers are modelled as `Nat` (for the unsigned
types) and `Int` (for the signed ones); wrapping `u64` addition (`+=` on
totals) is `(a + b) % 2^64` and Rust `i32` division is `Int.tdiv`
(truncation toward zero).
-/

namespace Iotop

/-- Upper bound of `u64`: `2 ^ 64 - 1`. -/
def U64MAX : Nat := 2 ^ 64 - 1

/-- Modulus of `u64` arithmetic. -/
def U64MOD : Nat := 2 ^ 64

/-- Rust `u64::saturating_add` on the `Nat` model. -/
def satAdd (a b : Nat) : Nat := min (a + b) U64MAX

/-- Rust (release-mode) wrapping `u64` addition, used for the `total_read` /
`total_write` running counters in `refresh_processes`. -/
def u64add (a b : Nat) : Nat := (a + b) % U64MOD

/-- The `TaskStats` struct of `src/taskstats.rs` (the five `u64` counters
plus the `u16` version field). -/
structure TaskStats where
  version : Nat
  blkio_delay_total : Nat
  swapin_delay_total : Nat
  read_bytes : Nat
  write_bytes : Nat
  cancelled_write_bytes : Nat
deriving DecidableEq

/-- `TaskStats::default()` — all fields zero. -/
def TaskStats.default : TaskStats :=
  { version := 0, blkio_delay_total := 0, swapin_delay_total := 0,
    read_bytes := 0, write_bytes := 0, cancelled_write_bytes := 0 }

/-- `TaskStats::is_all_zero` from `src/taskstats.rs`: all five counters are
zero (the version field is not inspected). -/
def TaskStats.is_all_zero (s : TaskStats) : Bool :=
  s.blkio_delay_total == 0 && s.swapin_delay_total == 0 && s.read_bytes == 0
    && s.write_bytes == 0 && s.cancelled_write_bytes == 0

/-- `TaskStats::delta` from `src/taskstats.rs`: componentwise
`saturating_sub` on the five counters (`Nat` subtraction is exactly
`u64::saturating_sub` on in-range values); the version is copied from
`self`. -/
def TaskStats.delta (self other : TaskStats) : TaskStats :=
  { version := self.version,
    blkio_delay_total := self.blkio_delay_total - other.blkio_delay_total,
    swapin_delay_total := self.swapin_delay_total - other.swapin_delay_total,
    read_bytes := self.read_bytes - other.read_bytes,
    write_bytes := self.write_bytes - other.write_bytes,
    cancelled_write_bytes := self.cancelled_write_bytes - other.cancelled_write_bytes }

/-- `TaskStats::accumulate` from `src/taskstats.rs`: componentwise
`saturating_add` of `delta` into `self` (the source mutates `self`; the
model returns the new value).  The version field is not touched. -/
def TaskStats.accumulate (self delta : TaskStats) : TaskStats :=
  { self with
    blkio_delay_total := satAdd self.blkio_delay_total delta.blkio_delay_total,
    swapin_delay_total := satAdd self.swapin_delay_total delta.swapin_delay_total,
    read_bytes := satAdd self.read_bytes delta.read_bytes,
    write_bytes := satAdd self.write_bytes delta.write_bytes,
    cancelled_write_bytes := satAdd self.cancelled_write_bytes delta.cancelled_write_bytes }

/-- Well-formedness of a `TaskStats` value as a Rust record: every field is
in range of its machine type. -/
def TaskStats.Wf (s : TaskStats) : Prop :=
  s.version < 2 ^ 16 ∧ s.blkio_delay_total ≤ U64MAX ∧ s.swapin_delay_total ≤ U64MAX
    ∧ s.read_bytes ≤ U64MAX ∧ s.write_bytes ≤ U64MAX ∧ s.cancelled_write_bytes ≤ U64MAX

instance (s : TaskStats) : Decidable s.Wf := by
  unfold TaskStats.Wf
  infer_instance

/-- Equality of the five counters of two `TaskStats` records (the claims
about algebraic laws speak about the counters, not the version field). -/
def TaskStats.countersEq (a b : TaskStats) : Prop :=
  a.blkio_delay_total = b.blkio_delay_total ∧ a.swapin_delay_total = b.swapin_delay_total
    ∧ a.read_bytes = b.read_bytes ∧ a.write_bytes = b.write_bytes
    ∧ a.cancelled_write_bytes = b.cancelled_write_bytes

instance (a b : TaskStats) : Decidable (a.countersEq b) := by
  unfold TaskStats.countersEq
  infer_instance

/-- The `ThreadInfo` struct of `src/process.rs`. -/
structure ThreadInfo where
  tid : Int
  stats_total : Option TaskStats
  stats_delta : TaskStats
deriving DecidableEq

/-- `ThreadInfo::new`. -/
def ThreadInfo.new (tid : Int) : ThreadInfo :=
  { tid := tid, stats_total := Option.none, stats_delta := TaskStats.default }

/-- `ThreadInfo::update_stats`: when a previous total exists the delta is
recomputed against it; the total is always replaced by the new sample. -/
def ThreadInfo.update_stats (self : ThreadInfo) (stats : TaskStats) : ThreadInfo :=
  let stats_delta :=
    match self.stats_total with
    | some total => stats.delta total
    | Option.none => self.stats_delta
  { self with stats_delta := stats_delta, stats_total := some stats }

/-- The `ProcessInfo` struct of `src/process.rs`.  The `threads` `HashMap`
is modelled as an association list; the `stats_accum_timestamp` field (a
wall-clock `Instant`, dead code in the source) is omitted. -/
structure ProcessInfo where
  pid : Int
  tid : Int
  uid : Option Nat
  user : Option String
  prio : Option String
  cmdline : Option String
  threads : List (Int × ThreadInfo)
  stats_delta : TaskStats
  stats_accum : TaskStats
deriving DecidableEq

/-- `ProcessInfo::new`. -/
def ProcessInfo.new (pid : Int) : ProcessInfo :=
  { pid := pid, tid := pid, uid := Option.none, user := Option.none,
    prio := Option.none, cmdline := Option.none, threads := [],
    stats_delta := TaskStats.default, stats_accum := TaskStats.default }

/-- `ProcessInfo::update_stats` from `src/process.rs`: with no threads it
returns `false` and changes nothing; otherwise it sums all threads'
`stats_delta` with `TaskStats::accumulate`, divides the two delay
components by the number of threads (integer division), stores the result
as the process `stats_delta` and accumulates it into `stats_accum`. -/
def ProcessInfo.update_stats (self : ProcessInfo) : ProcessInfo × Bool :=
  let num_threads := self.threads.length
  if num_threads = 0 then (self, false)
  else
    let stats_delta :=
      self.threads.foldl (fun acc kv => acc.accumulate kv.2.stats_delta) TaskStats.default
    let stats_delta :=
      { stats_delta with
        blkio_delay_total := stats_delta.blkio_delay_total / num_threads,
        swapin_delay_total := stats_delta.swapin_delay_total / num_threads }
    let self :=
      { self with stats_delta := stats_delta,
                  stats_accum := self.stats_accum.accumulate stats_delta }
    (self, true)

/-- Lookup in an association list (the model of `HashMap` access). -/
def alookup {α : Type} (l : List (Int × α)) (k : Int) : Option α :=
  match l with
  | [] => Option.none
  | kv :: rest => if kv.1 = k then some kv.2 else alookup rest k

/-- Insert-or-replace in an association list (the model of
`HashMap::entry(k).or_insert(..)` followed by in-place mutation of the
entry). -/
def aupsert {α : Type} (l : List (Int × α)) (k : Int) (v : α) : List (Int × α) :=
  match l with
  | [] => [(k, v)]
  | kv :: rest => if kv.1 = k then (k, v) :: rest else kv :: aupsert rest k v

/-- Splits a character list at every character satisfying `p`; the
separators are consumed.  Mirrors Rust `str::split`, which yields empty
pieces between adjacent separators. -/
def splitOnPred (p : Char → Bool) : List Char → List (List Char)
  | [] => [[]]
  | c :: cs =>
    if p c then [] :: splitOnPred p cs
    else
      match splitOnPred p cs with
      | [] => [[c]]
      | t :: ts => (c :: t) :: ts

/-- Rust `str::split_whitespace`: pieces between whitespace runs, with
empty pieces dropped. -/
def splitWhitespace (s : String) : List String :=
  ((splitOnPred (fun c => c.isWhitespace) s.toList).map String.mk).filter (fun t => t ≠ "")

/-- Rust `str::lines`, modelled as splitting on the newline character (a
trailing newline yields a final empty line, which every consumer below
ignores because it has fewer than two fields). -/
def strLines (s : String) : List String :=
  (splitOnPred (fun c => c = Char.ofNat 10) s.toList).map String.mk

/-- Digit-string to number; fails on a non-digit.  Helper for the models
of Rust `str::parse`. -/
def digitsToNatAux : List Char → Nat → Option Nat
  | [], acc => some acc
  | c :: cs, acc =>
    if c.isDigit then digitsToNatAux cs (acc * 10 + (c.toNat - 48)) else Option.none

/-- Parses a non-empty all-digit string. -/
def digitsToNat : List Char → Option Nat
  | [] => Option.none
  | l => digitsToNatAux l 0

/-- Sign handling shared by the integer parse models: an optional leading
`+` or `-` followed by at least one digit. -/
def parseIntCore (l : List Char) : Option Int :=
  match l with
  | '+' :: rest => (digitsToNat rest).map Int.ofNat
  | '-' :: rest => (digitsToNat rest).map (fun n => -(Int.ofNat n : Int))
  | _ => (digitsToNat l).map Int.ofNat

/-- Rust `str::parse::<i32>`: sign, digits, and the `i32` range check
(out-of-range input is a parse error, not a wrap). -/
def parseI32 (s : String) : Option Int :=
  (parseIntCore s.toList).bind fun v =>
    if -(2 ^ 31 : Int) ≤ v ∧ v ≤ 2 ^ 31 - 1 then some v else Option.none

/-- Rust `str::parse::<u64>`: optional `+`, digits, `u64` range check. -/
def parseU64 (s : String) : Option Nat :=
  match s.toList with
  | '+' :: rest => (digitsToNat rest).bind fun n => if n ≤ U64MAX then some n else Option.none
  | l => (digitsToNat l).bind fun n => if n ≤ U64MAX then some n else Option.none

/-- The parsing part of `ProcessList::read_vmstat` (`src/process.rs`):
scan the lines for `pgpgin` / `pgpgout`, take the second field of each
(`unwrap_or(0)` on parse failure, later lines overwrite earlier ones),
and convert pages to bytes with the fixed 4096-byte page size. -/
def parse_vmstat (content : String) : Nat × Nat :=
  let step := fun (acc : Nat × Nat) (line : String) =>
    let parts := splitWhitespace line
    if parts.length ≥ 2 then
      if parts.getD 0 "" = "pgpgin" then ((parseU64 (parts.getD 1 "")).getD 0, acc.2)
      else if parts.getD 0 "" = "pgpgout" then (acc.1, (parseU64 (parts.getD 1 "")).getD 0)
      else acc
    else acc
  let pg := (strLines content).foldl step (0, 0)
  (pg.1 * 4096, pg.2 * 4096)

/-- The environment a tick of `ProcessList::refresh_processes` reads:
everything the source obtains from `/proc` and from the netlink taskstats
connection during one tick.

* `procList` — the numeric entries of `/proc` in scan order;
* `taskDir g` — the TIDs listed by `/proc/<g>/task` (`Option.none` models a
  `read_dir` failure, triggering the `vec![tgid]` fallback);
* `sample t` — `TaskStatsConnection::get_task_stats(t)` (`Option.none`
  models both `Ok(None)` and a failed mutex lock, under which the source
  skips the update);
* `vmstatContent` — contents of `/proc/vmstat` (`Option.none` models a read
  failure);
* `statusUid g` / `statusTgid g` — the parsed first token of the `Uid:` /
  `Tgid:` line of `/proc/<g>/status`, when present and parseable;
* `cmdlineOf pid tid`, `userOf uid`, `prioOf tid` — oracles for
  `ProcessInfo::compute_cmdline`, `compute_user` and `compute_prio`,
  whose results depend only on those inputs plus the filesystem. -/
structure RefreshEnv where
  procList : List Int
  taskDir : Int → Option (List Int)
  sample : Int → Option TaskStats
  vmstatContent : Option String
  statusUid : Int → Option Nat
  statusTgid : Int → Option Int
  cmdlineOf : Int → Int → String
  userOf : Option Nat → String
  prioOf : Int → String

/-- `ProcessList::read_vmstat`: `Option.none` models the `Err` of the
failed file read; otherwise the parsed byte totals. -/
def read_vmstat (env : RefreshEnv) : Option (Nat × Nat) :=
  env.vmstatContent.map parse_vmstat

/-- The inner `for tid in tids` loop of `refresh_processes`: each TID gets
a `ThreadInfo` entry (`entry(tid).or_insert_with(ThreadInfo::new)`); on a
successful sample the thread is updated and its fresh `stats_delta` read
and write bytes are added (wrapping `u64` `+=`) to the running totals. -/
def threadLoop (env : RefreshEnv) :
    List Int → List (Int × ThreadInfo) × Nat × Nat → List (Int × ThreadInfo) × Nat × Nat
  | [], acc => acc
  | tid :: rest, (ths, r, w) =>
    let thread := (alookup ths tid).getD (ThreadInfo.new tid)
    match env.sample tid with
    | some stats =>
      let thread := thread.update_stats stats
      threadLoop env rest (aupsert ths tid thread,
        u64add r thread.stats_delta.read_bytes, u64add w thread.stats_delta.write_bytes)
    | Option.none => threadLoop env rest (aupsert ths tid thread, r, w)

/-- The thread list the source builds for one TGID: in process mode
(`show_processes = true`) the listing of `/proc/<tgid>/task` with the
`vec![tgid]` fallback on a failed `read_dir`; in thread mode just
`vec![tgid]`. -/
def tidsOf (env : RefreshEnv) (show_processes : Bool) (tgid : Int) : List Int :=
  if show_processes then (env.taskDir tgid).getD [tgid] else [tgid]

/-- The `Uid:` / `Tgid:` extraction of the per-TGID body: cache the UID
(resetting the cached username when the UID changed) and overwrite `pid`
with the `Tgid` value from `/proc/<tgid>/status` when available. -/
def applyStatus (env : RefreshEnv) (tgid : Int) (p : ProcessInfo) : ProcessInfo :=
  let p :=
    match env.statusUid tgid with
    | some uid =>
      { p with user := if uid ≠ p.uid.getD (2 ^ 32 - 1) then Option.none else p.user,
               uid := some uid }
    | Option.none => p
  match env.statusTgid tgid with
  | some tgid_val => { p with pid := tgid_val }
  | Option.none => p

/-- The `update_cmdline()` / `update_user()` / `update_prio()` calls at the
end of the per-TGID body: each fills its cached field only when it is
still `None`. -/
def applyMetadataCache (env : RefreshEnv) (p : ProcessInfo) : ProcessInfo :=
  let p := if p.cmdline.isNone then { p with cmdline := some (env.cmdlineOf p.pid p.tid) } else p
  let p := if p.user.isNone then { p with user := some (env.userOf p.uid) } else p
  if p.prio.isNone then { p with prio := some (env.prioOf p.tid) } else p

/-- The per-TGID body of the `for entry in entries` loop of
`refresh_processes`: set `tid := tgid`, build the thread list, run the
thread loop (threading the running totals through), aggregate with
`ProcessInfo::update_stats`, then refresh the cached metadata exactly as
the source does. -/
def processTick (env : RefreshEnv) (show_processes : Bool) (p0 : ProcessInfo)
    (tgid : Int) (tr tw : Nat) : ProcessInfo × Nat × Nat :=
  let p := { p0 with tid := tgid }
  let tids := tidsOf env show_processes tgid
  let res := threadLoop env tids (p.threads, tr, tw)
  let p := { p with threads := res.1 }
  let p := (p.update_stats).1
  let p := applyMetadataCache env (applyStatus env tgid p)
  (p, res.2.1, res.2.2)

/-- The outer loop of `refresh_processes` over the numeric `/proc`
entries: fetch-or-create the `ProcessInfo` keyed by the TGID, run the
per-TGID body, store the result back. -/
def procLoop (env : RefreshEnv) (show_processes : Bool) :
    List Int → List (Int × ProcessInfo) × Nat × Nat → List (Int × ProcessInfo) × Nat × Nat
  | [], acc => acc
  | tgid :: rest, (procs, tr, tw) =>
    let p0 := (alookup procs tgid).getD (ProcessInfo.new tgid)
    let res := processTick env show_processes p0 tgid tr tw
    procLoop env show_processes rest (aupsert procs tgid res.1, res.2.1, res.2.2)

/-- The mutable state of `ProcessList` that `refresh_processes` reads and
writes (the wall-clock timestamp and duration are not modelled). -/
structure PLState where
  processes : List (Int × ProcessInfo)
  prev_pgpgin : Option Nat
  prev_pgpgout : Option Nat
deriving DecidableEq

/-- `ProcessList::refresh_processes` (`src/process.rs`): reads vmstat with
`unwrap_or((0, 0))`, computes the actual-I/O deltas by saturating
subtraction against the stored previous counters (zero when absent),
unconditionally stores the current counters, runs the two-level process
scan accumulating `total_read` / `total_write`, and finally retains only
processes with a non-empty thread map.  Returns the new state plus
`((total_read, total_write), (actual_read, actual_write))`. -/
def refresh_processes (env : RefreshEnv) (st : PLState) (show_processes : Bool) :
    PLState × ((Nat × Nat) × (Nat × Nat)) :=
  let current := (read_vmstat env).getD (0, 0)
  let actual_read :=
    match st.prev_pgpgin with
    | some prev => current.1 - prev
    | Option.none => 0
  let actual_write :=
    match st.prev_pgpgout with
    | some prev => current.2 - prev
    | Option.none => 0
  let st := { st with prev_pgpgin := some current.1, prev_pgpgout := some current.2 }
  let res := procLoop env show_processes env.procList (st.processes, 0, 0)
  let procs := res.1.filter (fun kv => kv.2.threads ≠ [])
  ({ st with processes := procs }, ((res.2.1, res.2.2), (actual_read, actual_write)))

/-- The thread map the pre-tick state holds for TGID `g` (empty when the
entry does not exist, matching the `or_insert_with(ProcessInfo::new)`). -/
def threadsOf (st : PLState) (g : Int) : List (Int × ThreadInfo) :=
  ((alookup st.processes g).getD (ProcessInfo.new g)).threads

/-- Specification-side contribution of one TID to the tick totals, written
from the spec's words: the thread's fresh `last_delta` read and write
bytes on a successful sample, zero on a failed one. -/
def sampleContribution (env : RefreshEnv) (ths : List (Int × ThreadInfo)) (tid : Int) : Nat × Nat :=
  match env.sample tid with
  | some stats =>
    let th := ((alookup ths tid).getD (ThreadInfo.new tid)).update_stats stats
    (th.stats_delta.read_bytes, th.stats_delta.write_bytes)
  | Option.none => (0, 0)

/-- Specification-side total of read bytes for one tick: the sum over all
sampled threads of their `last_delta.read_bytes`, failed samples
contributing zero. -/
def expectedTotalRead (env : RefreshEnv) (show_processes : Bool) (st : PLState) : Nat :=
  (env.procList.map fun g =>
    ((tidsOf env show_processes g).map fun t => (sampleContribution env (threadsOf st g) t).1).sum).sum

/-- Specification-side total of write bytes for one tick. -/
def expectedTotalWrite (env : RefreshEnv) (show_processes : Bool) (st : PLState) : Nat :=
  (env.procList.map fun g =>
    ((tidsOf env show_processes g).map fun t => (sampleContribution env (threadsOf st g) t).2).sum).sum

/-- Every stored `ProcessInfo` owns exactly one thread, keyed by the
entry's own key (the shape thread mode maintains). -/
def SingletonThreads (procs : List (Int × ProcessInfo)) : Prop :=
  ∀ kv ∈ procs, ∃ th, kv.2.threads = [(kv.1, th)]

/-- Thread-map growth between two `ProcessInfo` values: every TID present
in the first is present in the second. -/
def ThreadsMono (p q : ProcessInfo) : Prop :=
  ∀ t, (alookup p.threads t).isSome → (alookup q.threads t).isSome

/-- The thread-mode shape of a stored entry for TGID `g`: present, owning
exactly the one thread keyed by `g`, with `pid` equal to the `Tgid` the
status file reports (when it reports one). -/
def ThreadModeGood (env : RefreshEnv) (procs : List (Int × ProcessInfo)) (g : Int) : Prop :=
  ∃ p, alookup procs g = some p ∧ (∃ th, p.threads = [(g, th)])
    ∧ ∀ t, env.statusTgid g = some t → p.pid = t

/-- A small concrete `TaskStats` sample used by witnesses. -/
def tsSample (r : Nat) : TaskStats :=
  { version := 0, blkio_delay_total := 0, swapin_delay_total := 0,
    read_bytes := r, write_bytes := 0, cancelled_write_bytes := 0 }

/-- A concrete environment for the total-I/O witness: one TGID 100 with
threads 100 and 101; thread 100 samples 4096 read bytes, thread 101 is
seen for the first time; TID 102 fails to sample. -/
def envC4 : RefreshEnv :=
  { procList := [100],
    taskDir := fun g => if g = 100 then some [100, 101, 102] else Option.none,
    sample := fun t =>
      if t = 100 then some (tsSample 4096)
      else if t = 101 then some (tsSample 77) else Option.none,
    vmstatContent := some "pgpgin 10\npgpgout 20\n",
    statusUid := fun _ => some 0,
    statusTgid := fun g => some g,
    cmdlineOf := fun _ _ => "cmd",
    userOf := fun _ => "root",
    prioOf := fun _ => "be/4" }

/-- A state in which thread 100 already has a baseline total, so its next
sample produces a non-zero delta. -/
def stC4 : PLState :=
  { processes :=
      [(100, { ProcessInfo.new 100 with
                threads := [(100, { ThreadInfo.new 100 with stats_total := some (tsSample 0) })] })],
    prev_pgpgin := some 0, prev_pgpgout := some 0 }

/-- A concrete exited process: TGID 42 with one recorded thread and a
non-zero last delta. -/
def pC10 : ProcessInfo :=
  { ProcessInfo.new 42 with
    threads := [(42, { ThreadInfo.new 42 with stats_delta := tsSample 512 })],
    stats_delta := tsSample 512 }

/-- An environment in which process 42 no longer appears in `/proc`. -/
def envC10 : RefreshEnv :=
  { procList := [99],
    taskDir := fun _ => Option.none,
    sample := fun _ => Option.none,
    vmstatContent := some "pgpgin 0\npgpgout 0\n",
    statusUid := fun _ => Option.none,
    statusTgid := fun _ => Option.none,
    cmdlineOf := fun _ _ => "",
    userOf := fun _ => "",
    prioOf := fun _ => "" }

/-- A state still holding the exited process 42. -/
def stC10 : PLState :=
  { processes := [(42, pC10)], prev_pgpgin := some 0, prev_pgpgout := some 0 }

/-- A concrete environment for the keying witness: TGIDs 5 and 6, with
task listings `[5, 7]` and `[6]`. -/
def envC2 : RefreshEnv :=
  { procList := [5, 6],
    taskDir := fun g => if g = 5 then some [5, 7] else if g = 6 then some [6] else Option.none,
    sample := fun _ => Option.none,
    vmstatContent := some "pgpgin 0\npgpgout 0\n",
    statusUid := fun _ => some 0,
    statusTgid := fun g => some g,
    cmdlineOf := fun _ _ => "cmd",
    userOf := fun _ => "root",
    prioOf := fun _ => "be/4" }

/-- The empty starting state of a fresh refresh stream. -/
def stC2 : PLState :=
  { processes := [], prev_pgpgin := Option.none, prev_pgpgout := Option.none }

/-- `IOPRIO_CLASS_SHIFT` from `src/ioprio.rs`. -/
def IOPRIO_CLASS_SHIFT : Nat := 13

/-- `IOPRIO_PRIO_MASK` from `src/ioprio.rs`. -/
def IOPRIO_PRIO_MASK : Nat := (1 <<< IOPRIO_CLASS_SHIFT) - 1

/-- `libc::SCHED_FIFO` on Linux. -/
def SCHED_FIFO : Int := 1

/-- `libc::SCHED_RR` on Linux. -/
def SCHED_RR : Int := 2

/-- `libc::SCHED_IDLE` on Linux. -/
def SCHED_IDLE : Int := 5

/-- The `IoprioClass` enum of `src/ioprio.rs`. -/
inductive IoprioClass where
  | None
  | RealTime
  | BestEffort
  | Idle
deriving DecidableEq

/-- `IoprioClass::from_u32`. -/
def IoprioClass.from_u32 (val : Nat) : Option IoprioClass :=
  match val with
  | 0 => some IoprioClass.None
  | 1 => some IoprioClass.RealTime
  | 2 => some IoprioClass.BestEffort
  | 3 => some IoprioClass.Idle
  | _ => Option.none

/-- `IoprioClass::as_str`. -/
def IoprioClass.as_str : IoprioClass → String
  | IoprioClass.None => "none"
  | IoprioClass.RealTime => "rt"
  | IoprioClass.BestEffort => "be"
  | IoprioClass.Idle => "idle"

/-- The `Ioprio` struct of `src/ioprio.rs` (`class` is a Lean keyword, so
the field is named `cls`). -/
structure Ioprio where
  cls : IoprioClass
  data : Nat
deriving DecidableEq

/-- `Ioprio::new`. -/
def Ioprio.new (cls : IoprioClass) (data : Nat) : Ioprio := { cls := cls, data := data }

/-- Rust `as u32` cast of a signed value: two's-complement reduction
modulo `2 ^ 32` (`Int.emod` with a positive modulus is non-negative). -/
def toU32 (n : Int) : Nat := (n % (2 ^ 32 : Int)).toNat

/-- Rust `as i32` cast of a wider signed value: reduce modulo `2 ^ 32`
into the signed range. -/
def toI32 (n : Int) : Int :=
  let m := n % (2 ^ 32 : Int)
  if m < 2 ^ 31 then m else m - 2 ^ 32

/-- `Ioprio::from_raw`: split the packed word into the 3-bit class above
bit 13 and the 13-bit level; an unknown class value becomes `None`. -/
def Ioprio.from_raw (ioprio : Int) : Ioprio :=
  let class_val := (toU32 ioprio >>> IOPRIO_CLASS_SHIFT) &&& 0x7
  let data := toU32 ioprio &&& IOPRIO_PRIO_MASK
  let cls := (IoprioClass.from_u32 class_val).getD IoprioClass.None
  { cls := cls, data := data }

/-- The `Display` implementation for `Ioprio` in `src/ioprio.rs`. -/
def Ioprio.toString (p : Ioprio) : String :=
  match p.cls with
  | IoprioClass.None => "none"
  | IoprioClass.Idle => "idle"
  | _ => p.cls.as_str ++ "/" ++ ToString.toString p.data

/-- Rust `Ord::clamp` on `Int`. -/
def rustClamp (x lo hi : Int) : Int := if x < lo then lo else if x > hi then hi else x

/-- The syscall results `get_ioprio` / `get_ioprio_from_sched` observe for
one process: the raw `c_long` returned by `syscall(SYS_ioprio_get, ..)`
(negative means failure), the scheduler policy from
`sched_getscheduler` (negative means failure), and the nice value from
`getpriority`. -/
structure IoprioEnv where
  ioprio_get_result : Int
  sched_getscheduler_result : Int
  getpriority_result : Int

/-- `get_ioprio_from_sched` from `src/ioprio.rs`: fail when the scheduler
cannot be read; otherwise derive the class from the policy and the level
from `clamp((nice + 20) / 5, 0, 7)` (truncating division, as in Rust). -/
def get_ioprio_from_sched (env : IoprioEnv) (pid : Int) : Except String Ioprio :=
  let policy := env.sched_getscheduler_result
  if policy < 0 then Except.error ("Failed to get scheduler for PID " ++ ToString.toString pid)
  else
    let nice := env.getpriority_result
    let ioprio_data := (rustClamp (Int.tdiv (nice + 20) 5) 0 7).toNat
    let cls :=
      if policy = SCHED_FIFO ∨ policy = SCHED_RR then IoprioClass.RealTime
      else if policy = SCHED_IDLE then IoprioClass.Idle
      else IoprioClass.BestEffort
    Except.ok (Ioprio.new cls ioprio_data)

/-- `get_ioprio` from `src/ioprio.rs`: on syscall failure fall back to the
scheduler derivation; on success decode the word, and if the decoded
class is `None` fall back likewise. -/
def get_ioprio (env : IoprioEnv) (pid : Int) : Except String Ioprio :=
  let result := env.ioprio_get_result
  if result < 0 then get_ioprio_from_sched env pid
  else
    let ioprio := Ioprio.from_raw (toI32 result)
    match ioprio.cls with
    | IoprioClass.None => get_ioprio_from_sched env pid
    | _ => Except.ok ioprio

/-- First index of a character in a character list (Rust `str::find` on a
`char` pattern; byte indices and character indices are order-isomorphic,
and only index comparisons are ever made). -/
def strFindIdx : List Char → Char → Option Nat
  | [], _ => Option.none
  | x :: xs, c => if x = c then some 0 else (strFindIdx xs c).map (· + 1)

/-- Last index of a character in a character list (Rust `str::rfind`). -/
def strRfindIdx : List Char → Char → Option Nat
  | [], _ => Option.none
  | x :: xs, c =>
    match strRfindIdx xs c with
    | some i => some (i + 1)
    | Option.none => if x = c then some 0 else Option.none

/-- The basename computation inside `ProcReader::parse_cmdline`
(`src/proc_reader.rs`): strip up to the last `/`, unless a `:` occurs
before that last `/`, in which case the token is kept verbatim. -/
def stripBasename (first : String) : String :=
  match strRfindIdx first.toList '/' with
  | some slash_pos =>
    match strFindIdx first.toList ':' with
    | some colon_pos =>
      if colon_pos < slash_pos then first
      else String.mk (first.toList.drop (slash_pos + 1))
    | Option.none => String.mk (first.toList.drop (slash_pos + 1))
  | Option.none => first

/-- The non-empty NUL-separated tokens of a cmdline file
(`content.split('\0').filter(|s| !s.is_empty())`). -/
def cmdlineTokens (content : String) : List String :=
  ((splitOnPred (fun c => c = Char.ofNat 0) content.toList).map String.mk).filter
    (fun s => s ≠ "")

/-- `ProcReader::parse_cmdline` from `src/proc_reader.rs`.  The only
filesystem access the source makes is reading `/proc/<tgid>/status` to
compare thread and process names when `pid != tid`; `tgidStatusName`
stands for the `Name` of that successfully read and parsed status file
(`Option.none` models a failed read or parse). -/
def parse_cmdline (content : String) (pid tid : Int) (thread_name : String)
    (tgidStatusName : Option String) : String :=
  if content ≠ "" then
    match cmdlineTokens content with
    | [] => "[" ++ thread_name ++ "]"
    | first :: rest =>
      let basename := stripBasename first
      let cmd :=
        if rest.length > 0 then basename ++ " " ++ String.intercalate " " rest
        else basename
      if pid ≠ tid then
        match tgidStatusName with
        | some pname =>
          if thread_name ≠ pname then cmd ++ " [" ++ thread_name ++ "]" else cmd
        | Option.none => cmd
      else cmd
  else "[" ++ thread_name ++ "]"

/-- Does a `:` occur in the token strictly before its last `/`?  (The
suppression condition of the amended claim C8.) -/
def colonBeforeLastSlash (first : String) : Bool :=
  match strFindIdx first.toList ':', strRfindIdx first.toList '/' with
  | some colon, some lastSlash => colon < lastSlash
  | _, _ => false

/-- Modelled from the spec's words (claim C8 as amended): the first token
is kept verbatim when a `:` occurs before the last `/`, and otherwise
stripped up to the last `/`. -/
def specBasename (first : String) : String :=
  match strRfindIdx first.toList '/' with
  | some lastSlash =>
    if colonBeforeLastSlash first then first
    else String.mk (first.toList.drop (lastSlash + 1))
  | Option.none => first

/-- The whitespace-split fields of the text after position `e` of a stat
file (the text after a closing parenthesis). -/
def postParenFields (content : String) (e : Nat) : List String :=
  splitWhitespace (String.mk (content.toList.drop (e + 1)))

/-- Rust `str::starts_with('/')` on the model. -/
def startsWithSlash (s : String) : Bool :=
  match s.toList with
  | c :: _ => c = '/'
  | [] => false

/-- Rust `str::trim`: strip whitespace from both ends. -/
def strTrim (s : String) : String :=
  String.mk (((s.toList.dropWhile Char.isWhitespace).reverse.dropWhile
    Char.isWhitespace).reverse)

/-- `ProcessInfo::compute_cmdline` from `src/process.rs` — the function
behind `get_cmdline`, i.e. the command string the UI and batch renderers
actually display.  Its filesystem reads are passed in as parameters:
`cmdlineContent` is the read of `/proc/<pid>/cmdline` (`Option.none`
models a failed read), `statusTgid` the parsed `Tgid:` of
`/proc/<tid>/status` consulted by `get_tgid` (whose fallback is `tid`),
and `threadName` / `tgidName` the `Name:` entries of the thread's and the
thread-group leader's status files.  The first token is stripped to its
basename only when it starts with `/`; no colon rule is applied. -/
def compute_cmdline (cmdlineContent : Option String) (tid : Int)
    (statusTgid : Option Int) (tgidName threadName : Option String) : String :=
  let kernelFallback :=
    match threadName with
    | some name => "[" ++ name ++ "]"
    | Option.none => "{no such process}"
  match cmdlineContent with
  | some cmdline =>
    if cmdline ≠ "" then
      match cmdlineTokens cmdline with
      | [] => "{no such process}"
      | first :: rest =>
        let first :=
          if startsWithSlash first then
            match strRfindIdx first.toList '/' with
            | some pos => String.mk (first.toList.drop (pos + 1))
            | Option.none => first
          else first
        let cmd := strTrim (String.intercalate " " (first :: rest))
        let tgid := statusTgid.getD tid
        if tgid ≠ tid then
          match threadName, tgidName with
          | some tname, some pname =>
            if tname ≠ pname then cmd ++ " [" ++ tname ++ "]" else cmd
          | _, _ => cmd
        else cmd
    else kernelFallback
  | Option.none => kernelFallback

/-- Modelled from the spec's words (claim C8 as amended): the rendered
command's first token is stripped up to the last `/` exactly when the
token starts with `/`; no colon rule applies to the rendered command. -/
def specRenderedBasename (first : String) : String :=
  if startsWithSlash first then
    match strRfindIdx first.toList '/' with
    | some pos => String.mk (first.toList.drop (pos + 1))
    | Option.none => first
  else first

/-- `ProcReader::read_nice` from `src/proc_reader.rs`: require a `(`,
locate the last `)`, whitespace-split the text after it, require at least
17 fields and parse field 16 as `i32`. -/
def read_nice (content : String) : Except String Int :=
  match strFindIdx content.toList '(' with
  | Option.none => Except.error "Invalid stat format"
  | some _ =>
    match strRfindIdx content.toList ')' with
    | Option.none => Except.error "Invalid stat format"
    | some e =>
      let parts := postParenFields content e
      if parts.length < 17 then Except.error "Stat too short"
      else
        match parseI32 (parts.getD 16 "") with
        | some v => Except.ok v
        | Option.none => Except.error "Failed to parse nice value"

/-- Modelled from the spec's words (claim C9): the nice value is the
0-based field 16 of the whitespace split of the text after the LAST `)`
of the stat content. -/
def specNiceExtract (content : String) : Option Int :=
  match strRfindIdx content.toList ')' with
  | some e => (postParenFields content e)[16]?.bind parseI32
  | Option.none => Option.none

/-- The nice extraction inside `ProcessInfo::compute_prio`
(`src/process.rs`): whitespace-split the WHOLE stat content and take
absolute field index 18 (`unwrap_or(0)` on a missing or unparseable
field). -/
def compute_prio_nice (content : String) : Int :=
  (((splitWhitespace content).get? 18).bind parseI32).getD 0

/-- `ProcessInfo::compute_prio` (`src/process.rs`): `Option.none` models a
failed read of `/proc/<tid>/stat`; with at least 18 whitespace fields the
priority string is `be/<(20 - nice) / 5>`, otherwise the `"be/4"`
fallback. -/
def compute_prio (content : Option String) : String :=
  match content with
  | some c =>
    let parts := splitWhitespace c
    if parts.length > 17 then
      "be/" ++ ToString.toString (Int.tdiv (20 - compute_prio_nice c) 5)
    else "be/4"
  | Option.none => "be/4"

/-- A concrete process for exercising the aggregation rule: two threads
with block-I/O delay deltas of 1 ms and 3 ms and some byte counters. -/
def pC1 : ProcessInfo :=
  { ProcessInfo.new 7 with
    threads :=
      [(7, { ThreadInfo.new 7 with
              stats_delta := { version := 0, blkio_delay_total := 1000000,
                               swapin_delay_total := 10, read_bytes := 100,
                               write_bytes := 200, cancelled_write_bytes := 300 } }),
       (8, { ThreadInfo.new 8 with
              stats_delta := { version := 0, blkio_delay_total := 3000000,
                               swapin_delay_total := 30, read_bytes := 1000,
                               write_bytes := 2000, cancelled_write_bytes := 3000 } })] }

/-- An environment for exercising the vmstat-failure path: `/proc/vmstat`
unreadable, no processes discovered. -/
def envC3 : RefreshEnv :=
  { procList := [],
    taskDir := fun _ => Option.none,
    sample := fun _ => Option.none,
    vmstatContent := Option.none,
    statusUid := fun _ => Option.none,
    statusTgid := fun _ => Option.none,
    cmdlineOf := fun _ _ => "",
    userOf := fun _ => "",
    prioOf := fun _ => "" }

/-- A state holding previously read vmstat counters. -/
def stC3 : PLState :=
  { processes := [], prev_pgpgin := some 5000, prev_pgpgout := some 7000 }

lemma satAdd_le_max (a b : Nat) : satAdd a b ≤ U64MAX := min_le_right _ _

lemma satAdd_of_le (a b : Nat) (h : a + b ≤ U64MAX) : satAdd a b = a + b :=
  min_eq_left h

/-- `C5`: `TaskStats::delta` is componentwise truncated subtraction (hence
never underflows nor panics), a sample componentwise strictly below the
previous total yields an all-zero delta, and every component of
`TaskStats::accumulate` is saturated at the `u64` maximum. -/
theorem C5_saturating_arithmetic (a b : TaskStats) :
    ((a.delta b).blkio_delay_total = a.blkio_delay_total - b.blkio_delay_total
      ∧ (a.delta b).swapin_delay_total = a.swapin_delay_total - b.swapin_delay_total
      ∧ (a.delta b).read_bytes = a.read_bytes - b.read_bytes
      ∧ (a.delta b).write_bytes = a.write_bytes - b.write_bytes
      ∧ (a.delta b).cancelled_write_bytes = a.cancelled_write_bytes - b.cancelled_write_bytes)
    ∧ (a.blkio_delay_total < b.blkio_delay_total →
        a.swapin_delay_total < b.swapin_delay_total →
        a.read_bytes < b.read_bytes →
        a.write_bytes < b.write_bytes →
        a.cancelled_write_bytes < b.cancelled_write_bytes →
        (a.delta b).is_all_zero = true)
    ∧ ((a.accumulate b).blkio_delay_total ≤ U64MAX
      ∧ (a.accumulate b).swapin_delay_total ≤ U64MAX
      ∧ (a.accumulate b).read_bytes ≤ U64MAX
      ∧ (a.accumulate b).write_bytes ≤ U64MAX
      ∧ (a.accumulate b).cancelled_write_bytes ≤ U64MAX) := by
  refine ⟨⟨rfl, rfl, rfl, rfl, rfl⟩, ?_, ?_⟩
  · intro h1 h2 h3 h4 h5
    simp only [TaskStats.delta, TaskStats.is_all_zero]
    simp [Nat.sub_eq_zero_of_le, Nat.le_of_lt, h1, h2, h3, h4, h5]
  · exact ⟨satAdd_le_max _ _, satAdd_le_max _ _, satAdd_le_max _ _,
      satAdd_le_max _ _, satAdd_le_max _ _⟩

/-- Witness for `C5_saturating_arithmetic` at a concrete pair of records
whose counters reset strictly downward. -/
theorem C5_saturating_arithmetic_witness :
    let a : TaskStats := ⟨0, 1, 2, 3, 4, 5⟩
    let b : TaskStats := ⟨0, 10, 20, 30, 40, 50⟩
    (a.delta b).is_all_zero = true ∧ (a.accumulate b).read_bytes ≤ U64MAX := by
  intro a b
  exact ⟨(C5_saturating_arithmetic a b).2.1 (by decide) (by decide) (by decide)
      (by decide) (by decide),
    (C5_saturating_arithmetic a b).2.2.2.2.1⟩

/-- `C6`: the delta/accumulate laws on the five counters: for a
well-formed record `x` and the all-zero record,
`delta(x, zero) = x`, `accumulate(zero, x) = x` and
`accumulate(x, delta(x, x)) = x` hold counter-wise. -/
theorem C6_delta_accumulate_laws (x : TaskStats) (hwf : x.Wf) :
    x.delta TaskStats.default = x
      ∧ (TaskStats.default.accumulate x).countersEq x
      ∧ (x.accumulate (x.delta x)).countersEq x := by
  obtain ⟨-, h1, h2, h3, h4, h5⟩ := hwf
  refine ⟨?_, ?_, ?_⟩
  · simp [TaskStats.delta, TaskStats.default]
  · refine ⟨?_, ?_, ?_, ?_, ?_⟩ <;>
      simp [TaskStats.accumulate, TaskStats.default, satAdd_of_le, h1, h2, h3, h4, h5]
  · refine ⟨?_, ?_, ?_, ?_, ?_⟩ <;>
      simp [TaskStats.accumulate, TaskStats.delta, satAdd_of_le, h1, h2, h3, h4, h5]

/-- Witness for `C6_delta_accumulate_laws` at a concrete record. -/
theorem C6_delta_accumulate_laws_witness :
    let x : TaskStats := ⟨1, 100, 200, 4096, 8192, 12⟩
    x.delta TaskStats.default = x
      ∧ (TaskStats.default.accumulate x).countersEq x
      ∧ (x.accumulate (x.delta x)).countersEq x :=
  C6_delta_accumulate_laws ⟨1, 100, 200, 4096, 8192, 12⟩ (by decide)

/-- `C3` counterexample: with previously stored counters `Some 5000` /
`Some 7000` and an unreadable `/proc/vmstat`, the tick publishes a zero
`actual_io` but OVERWRITES the stored counters with `Some 0` instead of
leaving them unchanged. -/
theorem C3_vmstat_failure_counterexample :
    (refresh_processes envC3 stC3 true).2.2 = (0, 0)
      ∧ (refresh_processes envC3 stC3 true).1.prev_pgpgin = some 0
      ∧ (refresh_processes envC3 stC3 true).1.prev_pgpgout = some 0
      ∧ stC3.prev_pgpgin = some 5000
      ∧ some (0 : Nat) ≠ some (5000 : Nat) := by
  refine ⟨rfl, rfl, rfl, rfl, by decide⟩

/-- `C3` as amended: when the `/proc/vmstat` read fails, both components
of `actual_io` are zero for that tick, but the stored previous counters
are overwritten with `Some 0` (so the next successful tick computes its
delta against zero, i.e. reports the full cumulative counters). -/
theorem C3_vmstat_failure (env : RefreshEnv) (st : PLState) (show_processes : Bool)
    (h : env.vmstatContent = Option.none) :
    (refresh_processes env st show_processes).2.2 = (0, 0)
      ∧ (refresh_processes env st show_processes).1.prev_pgpgin = some 0
      ∧ (refresh_processes env st show_processes).1.prev_pgpgout = some 0 := by
  unfold refresh_processes read_vmstat
  rw [h]
  refine ⟨?_, rfl, rfl⟩
  cases hin : st.prev_pgpgin <;> cases hout : st.prev_pgpgout <;>
    simp [hin, hout]

/-- Witness for `C3_vmstat_failure` at the concrete failing environment. -/
theorem C3_vmstat_failure_witness :
    (refresh_processes envC3 stC3 true).2.2 = (0, 0)
      ∧ (refresh_processes envC3 stC3 true).1.prev_pgpgin = some 0 :=
  ⟨(C3_vmstat_failure envC3 stC3 true rfl).1, (C3_vmstat_failure envC3 stC3 true rfl).2.1⟩

/-- `C7`: when the `ioprio_get` syscall fails, or the decoded class is
`None`, and the scheduler policy can be read, `get_ioprio` returns the
fallback priority: class `RealTime` for `SCHED_FIFO`/`SCHED_RR`, `Idle`
for `SCHED_IDLE`, `BestEffort` otherwise, with level
`clamp((nice + 20) / 5, 0, 7)`. -/
theorem C7_ioprio_fallback (env : IoprioEnv) (pid : Int)
    (hfb : env.ioprio_get_result < 0
      ∨ (Ioprio.from_raw (toI32 env.ioprio_get_result)).cls = IoprioClass.None)
    (hpol : 0 ≤ env.sched_getscheduler_result) :
    get_ioprio env pid = Except.ok
      (Ioprio.new
        (if env.sched_getscheduler_result = SCHED_FIFO
            ∨ env.sched_getscheduler_result = SCHED_RR then IoprioClass.RealTime
         else if env.sched_getscheduler_result = SCHED_IDLE then IoprioClass.Idle
         else IoprioClass.BestEffort)
        (rustClamp (Int.tdiv (env.getpriority_result + 20) 5) 0 7).toNat) := by
  have hsched : get_ioprio_from_sched env pid = Except.ok
      (Ioprio.new
        (if env.sched_getscheduler_result = SCHED_FIFO
            ∨ env.sched_getscheduler_result = SCHED_RR then IoprioClass.RealTime
         else if env.sched_getscheduler_result = SCHED_IDLE then IoprioClass.Idle
         else IoprioClass.BestEffort)
        (rustClamp (Int.tdiv (env.getpriority_result + 20) 5) 0 7).toNat) := by
    unfold get_ioprio_from_sched
    rw [if_neg (by omega)]
  unfold get_ioprio
  rcases hfb with hneg | hclass
  · rw [if_pos hneg]
    exact hsched
  · by_cases hneg : env.ioprio_get_result < 0
    · rw [if_pos hneg]
      exact hsched
    · rw [if_neg hneg]
      simp only [hclass]
      exact hsched

/-- Witness for `C7_ioprio_fallback`: a failed syscall, normal policy and
nice 0 yield best-effort level 4, rendered `"be/4"`. -/
theorem C7_ioprio_fallback_witness :
    get_ioprio ⟨-1, 0, 0⟩ 42 = Except.ok (Ioprio.new IoprioClass.BestEffort 4)
      ∧ (Ioprio.new IoprioClass.BestEffort 4).toString = "be/4" :=
  ⟨(C7_ioprio_fallback ⟨-1, 0, 0⟩ 42 (Or.inl (by decide)) (by decide)).trans
      (congrArg Except.ok (by decide)),
    by decide⟩

/-- `C8` counterexample: in the token `"a/b:c/d"` the colon (index 3) does
NOT occur before the first `/` (index 1), so the claim demands stripping
the rendered command to the basename `"d"`; the renderer
(`ProcessInfo::compute_cmdline`) keeps the token verbatim, because it
strips only tokens that start with `/` and has no colon rule at all — as
shown too by `"usr/bin/python"`, colon-free yet also kept verbatim.  (The
unused helper `ProcReader::parse_cmdline` also keeps `"a/b:c/d"`, in its
case because the colon precedes the LAST `/`.) -/
theorem C8_basename_counterexample :
    strFindIdx "a/b:c/d".toList '/' = some 1
      ∧ strFindIdx "a/b:c/d".toList ':' = some 3
      ∧ ¬ (3 : Nat) < 1
      ∧ compute_cmdline (some "a/b:c/d") 1 (some 1) Option.none Option.none = "a/b:c/d"
      ∧ "a/b:c/d" ≠ "d"
      ∧ compute_cmdline (some "usr/bin/python") 1 (some 1) Option.none Option.none
          = "usr/bin/python"
      ∧ "usr/bin/python" ≠ "python"
      ∧ parse_cmdline "a/b:c/d" 1 1 "x" Option.none = "a/b:c/d" := by
  refine ⟨by decide, by decide, by decide, by decide, by decide, by decide, by decide,
    by decide⟩

/-- `C8` as amended: the rendered command (`ProcessInfo::compute_cmdline`,
behind `get_cmdline`, in the main-process case `get_tgid() = tid` where
no thread-suffix logic runs) transforms the first non-empty NUL-separated
token by the rule "strip up to the last `/` exactly when the token starts
with `/`; no colon rule", joining the remaining tokens with spaces and
trimming; separately, the unused helper `ProcReader::parse_cmdline`
(in its `pid = tid` case) strips up to the last `/` unless a `:` occurs
before the LAST `/` (not the first, as claimed). -/
theorem C8_basename_rule :
    (∀ (cmdline : String) (tid : Int) (statusTgid : Option Int)
        (tgidName threadName : Option String) (first : String) (rest : List String),
      cmdlineTokens cmdline = first :: rest →
      statusTgid.getD tid = tid →
      compute_cmdline (some cmdline) tid statusTgid tgidName threadName
        = strTrim (String.intercalate " " (specRenderedBasename first :: rest)))
    ∧ (∀ (content : String) (pid tid : Int) (thread_name : String) (o : Option String)
        (first : String) (rest : List String),
      pid = tid →
      cmdlineTokens content = first :: rest →
      parse_cmdline content pid tid thread_name o
        = (if rest.length > 0 then specBasename first ++ " " ++ String.intercalate " " rest
           else specBasename first)) := by
  constructor
  · intro cmdline tid statusTgid tgidName threadName first rest htok htgid
    have hne : cmdline ≠ "" := by
      intro hc
      rw [hc, show cmdlineTokens "" = [] from by decide] at htok
      exact List.cons_ne_nil first rest htok.symm
    unfold compute_cmdline
    dsimp only
    rw [if_pos hne]
    simp only [htok]
    rw [htgid]
    simp only [ne_eq, not_true_eq_false, if_false, ite_false]
    unfold specRenderedBasename
    rfl
  · intro content pid tid thread_name o first rest hp htok
    have hne : content ≠ "" := by
      intro hc
      rw [hc, show cmdlineTokens "" = [] from by decide] at htok
      exact List.cons_ne_nil first rest htok.symm
    have hstrip : stripBasename first = specBasename first := by
      unfold stripBasename specBasename colonBeforeLastSlash
      cases hslashpos : strRfindIdx first.toList '/' with
      | none => rfl
      | some lastSlash =>
        cases hcolon : strFindIdx first.toList ':' with
        | none => simp
        | some colon => by_cases hlt : colon < lastSlash <;> simp [hlt]
    unfold parse_cmdline
    rw [if_pos hne, htok]
    simp only [hp, ne_eq, not_true_eq_false, if_false, ite_false, hstrip]

/-- Witness for `C8_basename_rule`: the renderer keeps the
`sshd-session: user@pts/6` presentation verbatim (the token does not
start with `/`), strips `/usr/bin/bash -l` to `bash -l`, and the helper
keeps `sshd-session: user@pts/6` verbatim by its colon-before-last-slash
rule. -/
theorem C8_basename_rule_witness :
    compute_cmdline (some "sshd-session: user@pts/6") 1 (some 1) Option.none Option.none
        = "sshd-session: user@pts/6"
      ∧ compute_cmdline (some ("/usr/bin/bash" ++ String.mk [Char.ofNat 0] ++ "-l")) 1
          (some 1) Option.none Option.none = "bash -l"
      ∧ parse_cmdline "sshd-session: user@pts/6" 1 1 "sshd-session" Option.none
          = "sshd-session: user@pts/6" := by
  refine ⟨?_, ?_, ?_⟩
  · exact (C8_basename_rule.1 "sshd-session: user@pts/6" 1 (some 1) Option.none Option.none
      "sshd-session: user@pts/6" [] (by decide) rfl).trans (by decide)
  · exact (C8_basename_rule.1 ("/usr/bin/bash" ++ String.mk [Char.ofNat 0] ++ "-l") 1 (some 1)
      Option.none Option.none "/usr/bin/bash" ["-l"] (by decide) rfl).trans (by decide)
  · exact (C8_basename_rule.2 "sshd-session: user@pts/6" 1 1 "sshd-session" Option.none
      "sshd-session: user@pts/6" [] rfl (by decide)).trans (by decide)

/-- `C9` counterexample: on a stat content whose `comm` contains a space
(`"(a b)"`), the claimed rule (field 16 after the last `)`) yields nice 5
— as `ProcReader::read_nice` does — but the extraction actually used by
`ProcessInfo::compute_prio` takes absolute whitespace field 18 of the
whole content and yields 20. -/
theorem C9_nice_extraction_counterexample :
    read_nice "1 (a b) S 1 2 3 4 5 6 7 8 9 10 11 12 13 14 20 5 555" = Except.ok 5
      ∧ specNiceExtract "1 (a b) S 1 2 3 4 5 6 7 8 9 10 11 12 13 14 20 5 555" = some 5
      ∧ compute_prio_nice "1 (a b) S 1 2 3 4 5 6 7 8 9 10 11 12 13 14 20 5 555" = 20
      ∧ (20 : Int) ≠ 5 := by
  refine ⟨rfl, by decide, by decide, by decide⟩

/-- `C9` as amended: `ProcReader::read_nice` follows the claimed rule —
it succeeds with value `v` exactly when the content contains a `(` and
field 16 (0-based) of the whitespace split after the LAST `)` parses as
`v` — hence is robust to whitespace and parentheses inside `comm`;
`ProcessInfo::compute_prio`, however, uses absolute field 18 of the whole
content (see the counterexample). -/
theorem C9_read_nice_rule (content : String) (v : Int) :
    read_nice content = Except.ok v ↔
      ((strFindIdx content.toList '(').isSome ∧ specNiceExtract content = some v) := by
  unfold read_nice specNiceExtract
  cases h1 : strFindIdx content.toList '(' with
  | none => simp
  | some s =>
    cases h2 : strRfindIdx content.toList ')' with
    | none => simp
    | some e =>
      simp only [Option.isSome_some, true_and]
      by_cases hlen : (postParenFields content e).length < 17
      · rw [if_pos hlen]
        rw [List.getElem?_eq_none (by omega)]
        simp
      · rw [if_neg hlen]
        have hlt : 16 < (postParenFields content e).length := by omega
        rw [List.getElem?_eq_getElem hlt]
        have hgd : (postParenFields content e).getD 16 "" = (postParenFields content e)[16] :=
          List.getD_eq_getElem _ _ hlt
        rw [hgd]
        cases hpi : parseI32 ((postParenFields content e)[16]) <;> simp [hpi]

lemma u64add_zero_mod (a b : Nat) : u64add a b = (a + b) % U64MOD := rfl

lemma satFold {α : Type} (g : α → Nat) (l : List α) (a : Nat) (h : a ≤ U64MAX) :
    l.foldl (fun n x => satAdd n (g x)) a = min (a + (l.map g).sum) U64MAX := by
  induction l generalizing a with
  | nil =>
    simp only [List.foldl_nil, List.map_nil, List.sum_nil, Nat.add_zero]
    exact (min_eq_left h).symm
  | cons x xs ih =>
    simp only [List.foldl_cons, List.map_cons, List.sum_cons]
    rw [ih _ (satAdd_le_max _ _)]
    unfold satAdd
    rcases le_total (a + g x) U64MAX with h' | h'
    · rw [min_eq_left h']
      ring_nf
    · rw [min_eq_right h']
      have h1 : U64MAX ≤ U64MAX + (xs.map g).sum := Nat.le_add_right _ _
      have h2 : U64MAX ≤ a + (g x + (xs.map g).sum) := by omega
      rw [min_eq_right h1, min_eq_right h2]

lemma accumFold_proj (f : TaskStats → Nat)
    (hf : ∀ a s : TaskStats, f (a.accumulate s) = satAdd (f a) (f s))
    (l : List (Int × ThreadInfo)) (a : TaskStats) :
    f (l.foldl (fun acc kv => acc.accumulate kv.2.stats_delta) a)
      = l.foldl (fun n kv => satAdd n (f kv.2.stats_delta)) (f a) := by
  induction l generalizing a with
  | nil => rfl
  | cons x xs ih =>
    simp only [List.foldl_cons]
    rw [ih, hf]

lemma accumFold_sum (f : TaskStats → Nat)
    (hf : ∀ a s : TaskStats, f (a.accumulate s) = satAdd (f a) (f s))
    (hz : f TaskStats.default = 0)
    (l : List (Int × ThreadInfo)) :
    f (l.foldl (fun acc kv => acc.accumulate kv.2.stats_delta) TaskStats.default)
      = min ((l.map fun kv => f kv.2.stats_delta).sum) U64MAX := by
  rw [accumFold_proj f hf, hz, satFold (fun kv => f kv.2.stats_delta) l 0 (Nat.zero_le _)]
  simp

/-- `C1`: for a process with a non-empty thread map whose per-component
delta sums fit in `u64`, `ProcessInfo::update_stats` sets the byte
counters of the process `stats_delta` to the componentwise sums of the
threads' deltas, and the two delay counters to those sums divided by the
number of threads (integer division). -/
theorem C1_process_aggregation (p : ProcessInfo)
    (hne : p.threads ≠ [])
    (hr : (p.threads.map fun kv => kv.2.stats_delta.read_bytes).sum ≤ U64MAX)
    (hw : (p.threads.map fun kv => kv.2.stats_delta.write_bytes).sum ≤ U64MAX)
    (hc : (p.threads.map fun kv => kv.2.stats_delta.cancelled_write_bytes).sum ≤ U64MAX)
    (hb : (p.threads.map fun kv => kv.2.stats_delta.blkio_delay_total).sum ≤ U64MAX)
    (hs : (p.threads.map fun kv => kv.2.stats_delta.swapin_delay_total).sum ≤ U64MAX) :
    ((p.update_stats).1.stats_delta.read_bytes
        = (p.threads.map fun kv => kv.2.stats_delta.read_bytes).sum)
      ∧ ((p.update_stats).1.stats_delta.write_bytes
        = (p.threads.map fun kv => kv.2.stats_delta.write_bytes).sum)
      ∧ ((p.update_stats).1.stats_delta.cancelled_write_bytes
        = (p.threads.map fun kv => kv.2.stats_delta.cancelled_write_bytes).sum)
      ∧ ((p.update_stats).1.stats_delta.blkio_delay_total
        = (p.threads.map fun kv => kv.2.stats_delta.blkio_delay_total).sum
            / p.threads.length)
      ∧ ((p.update_stats).1.stats_delta.swapin_delay_total
        = (p.threads.map fun kv => kv.2.stats_delta.swapin_delay_total).sum
            / p.threads.length) := by
  have hlen : p.threads.length ≠ 0 := by
    simpa [List.length_eq_zero] using hne
  unfold ProcessInfo.update_stats
  rw [if_neg hlen]
  simp only
  refine ⟨?_, ?_, ?_, ?_, ?_⟩
  · rw [accumFold_sum (fun s => s.read_bytes) (fun a s => rfl) rfl]
    exact min_eq_left hr
  · rw [accumFold_sum (fun s => s.write_bytes) (fun a s => rfl) rfl]
    exact min_eq_left hw
  · rw [accumFold_sum (fun s => s.cancelled_write_bytes) (fun a s => rfl) rfl]
    exact min_eq_left hc
  · rw [accumFold_sum (fun s => s.blkio_delay_total) (fun a s => rfl) rfl]
    rw [min_eq_left hb]
  · rw [accumFold_sum (fun s => s.swapin_delay_total) (fun a s => rfl) rfl]
    rw [min_eq_left hs]

/-- Witness for `C1_process_aggregation`: two threads with block-I/O delay
deltas 1 000 000 ns and 3 000 000 ns yield a process delta of
2 000 000 ns, while the byte counters are summed. -/
theorem C1_process_aggregation_witness :
    (pC1.update_stats).1.stats_delta.blkio_delay_total = 2000000
      ∧ (pC1.update_stats).1.stats_delta.read_bytes = 1100
      ∧ (pC1.update_stats).1.stats_delta.swapin_delay_total = 20 := by
  have h := C1_process_aggregation pC1 (by decide) (by decide) (by decide) (by decide)
    (by decide) (by decide)
  exact ⟨h.2.2.2.1.trans (by decide), h.1.trans (by decide), h.2.2.2.2.trans (by decide)⟩

lemma alookup_aupsert_self {α : Type} (l : List (Int × α)) (k : Int) (v : α) :
    alookup (aupsert l k v) k = some v := by
  induction l with
  | nil => simp [aupsert, alookup]
  | cons kv rest ih =>
    by_cases h : kv.1 = k
    · simp [aupsert, alookup, h]
    · simp only [aupsert, alookup, if_neg h]
      exact ih

lemma alookup_aupsert_ne {α : Type} (l : List (Int × α)) (k k' : Int) (v : α)
    (h : k' ≠ k) : alookup (aupsert l k v) k' = alookup l k' := by
  have hk'k : ¬ (k = k') := fun hh => h hh.symm
  induction l with
  | nil => simp [aupsert, alookup, hk'k]
  | cons kv rest ih =>
    obtain ⟨k0, v0⟩ := kv
    by_cases hk : k0 = k
    · subst hk
      simp [aupsert, alookup, hk'k]
    · by_cases hk' : k0 = k'
      · simp [aupsert, alookup, hk, hk', h]
      · simp [aupsert, alookup, hk, hk', ih]

lemma alookup_isSome_aupsert {α : Type} (l : List (Int × α)) (k k' : Int) (v : α)
    (h : (alookup l k').isSome) : (alookup (aupsert l k v) k').isSome := by
  by_cases hk : k' = k
  · subst hk
    rw [alookup_aupsert_self]
    rfl
  · rw [alookup_aupsert_ne l k k' v hk]
    exact h

lemma mem_aupsert {α : Type} (l : List (Int × α)) (k : Int) (v : α) (kv : Int × α)
    (h : kv ∈ aupsert l k v) : kv = (k, v) ∨ kv ∈ l := by
  induction l with
  | nil => simpa [aupsert] using h
  | cons kv0 rest ih =>
    by_cases hk : kv0.1 = k
    · rw [aupsert, if_pos hk] at h
      rcases List.mem_cons.mp h with h | h
      · exact Or.inl h
      · exact Or.inr (List.mem_cons_of_mem _ h)
    · rw [aupsert, if_neg hk] at h
      rcases List.mem_cons.mp h with h | h
      · exact Or.inr (h ▸ List.mem_cons_self _ _)
      · rcases ih h with h | h
        · exact Or.inl h
        · exact Or.inr (List.mem_cons_of_mem _ h)

lemma alookup_mem {α : Type} (l : List (Int × α)) (k : Int) (v : α)
    (h : alookup l k = some v) : (k, v) ∈ l := by
  induction l with
  | nil => simp [alookup] at h
  | cons kv rest ih =>
    by_cases hk : kv.1 = k
    · rw [alookup, if_pos hk] at h
      have : kv = (k, v) := by
        obtain ⟨k0, v0⟩ := kv
        simp only at hk
        simp only [Option.some_inj] at h
        simp [hk, h]
      exact this ▸ List.mem_cons_self _ _
    · rw [alookup, if_neg hk] at h
      exact List.mem_cons_of_mem _ (ih h)

lemma alookup_filter {α : Type} (q : α → Bool) (l : List (Int × α)) (k : Int) (v : α)
    (h : alookup l k = some v) (hq : q v = true) :
    alookup (l.filter fun kv => q kv.2) k = some v := by
  induction l with
  | nil => simp [alookup] at h
  | cons kv rest ih =>
    by_cases hk : kv.1 = k
    · rw [alookup, if_pos hk] at h
      have hv : kv.2 = v := by simpa using h
      rw [List.filter_cons, if_pos (by rw [hv]; exact hq)]
      rw [alookup, if_pos hk, hv]
    · rw [alookup, if_neg hk] at h
      rw [List.filter_cons]
      by_cases hkeep : q kv.2 = true
      · rw [if_pos hkeep, alookup, if_neg hk]
        exact ih h
      · rw [if_neg hkeep]
        exact ih h

lemma alookup_isSome_ne_nil {α : Type} (l : List (Int × α)) (k : Int)
    (h : (alookup l k).isSome) : l ≠ [] := by
  intro hl
  rw [hl] at h
  simp [alookup] at h

lemma ne_nil_alookup_isSome {α : Type} (l : List (Int × α)) (h : l ≠ []) :
    ∃ k, (alookup l k).isSome := by
  cases l with
  | nil => exact absurd rfl h
  | cons kv rest => exact ⟨kv.1, by simp [alookup]⟩

lemma ThreadsMono.refl (p : ProcessInfo) : ThreadsMono p p := fun _ h => h

lemma ThreadsMono.trans {p q r : ProcessInfo} (h1 : ThreadsMono p q)
    (h2 : ThreadsMono q r) : ThreadsMono p r := fun t h => h2 t (h1 t h)

lemma update_stats_threads (p : ProcessInfo) : ((p.update_stats).1).threads = p.threads := by
  simp only [ProcessInfo.update_stats]
  split <;> rfl

lemma update_stats_pid (p : ProcessInfo) : ((p.update_stats).1).pid = p.pid := by
  simp only [ProcessInfo.update_stats]
  split <;> rfl

lemma applyStatus_threads (env : RefreshEnv) (g : Int) (p : ProcessInfo) :
    (applyStatus env g p).threads = p.threads := by
  unfold applyStatus
  cases env.statusUid g <;> cases env.statusTgid g <;> rfl

lemma applyStatus_pid (env : RefreshEnv) (g : Int) (p : ProcessInfo) (t : Int)
    (h : env.statusTgid g = some t) : (applyStatus env g p).pid = t := by
  unfold applyStatus
  cases env.statusUid g <;> rw [h]

lemma applyMetadataCache_threads (env : RefreshEnv) (p : ProcessInfo) :
    (applyMetadataCache env p).threads = p.threads := by
  simp only [applyMetadataCache]
  split <;> split <;> split <;> rfl

lemma applyMetadataCache_pid (env : RefreshEnv) (p : ProcessInfo) :
    (applyMetadataCache env p).pid = p.pid := by
  simp only [applyMetadataCache]
  split <;> split <;> split <;> rfl

lemma processTick_threads (env : RefreshEnv) (show_processes : Bool) (p0 : ProcessInfo)
    (g : Int) (tr tw : Nat) :
    (processTick env show_processes p0 g tr tw).1.threads
      = (threadLoop env (tidsOf env show_processes g) (p0.threads, tr, tw)).1 := by
  unfold processTick
  rw [applyMetadataCache_threads, applyStatus_threads, update_stats_threads]

lemma processTick_totals (env : RefreshEnv) (show_processes : Bool) (p0 : ProcessInfo)
    (g : Int) (tr tw : Nat) :
    (processTick env show_processes p0 g tr tw).2
      = (threadLoop env (tidsOf env show_processes g) (p0.threads, tr, tw)).2 := rfl

lemma processTick_pid (env : RefreshEnv) (show_processes : Bool) (p0 : ProcessInfo)
    (g : Int) (tr tw : Nat) (t : Int) (h : env.statusTgid g = some t) :
    (processTick env show_processes p0 g tr tw).1.pid = t := by
  unfold processTick
  rw [applyMetadataCache_pid, applyStatus_pid env g _ t h]

lemma threadLoop_mono (env : RefreshEnv) (tids : List Int)
    (acc : List (Int × ThreadInfo) × Nat × Nat) (t : Int)
    (h : (alookup acc.1 t).isSome) : (alookup (threadLoop env tids acc).1 t).isSome := by
  induction tids generalizing acc with
  | nil => exact h
  | cons tid rest ih =>
    obtain ⟨ths, r, w⟩ := acc
    rw [threadLoop]
    cases env.sample tid with
    | some stats => exact ih _ (alookup_isSome_aupsert _ _ _ _ h)
    | none => exact ih _ (alookup_isSome_aupsert _ _ _ _ h)

lemma threadLoop_mem (env : RefreshEnv) (tids : List Int)
    (acc : List (Int × ThreadInfo) × Nat × Nat) (t : Int)
    (h : t ∈ tids) : (alookup (threadLoop env tids acc).1 t).isSome := by
  induction tids generalizing acc with
  | nil => simp at h
  | cons tid rest ih =>
    obtain ⟨ths, r, w⟩ := acc
    rw [threadLoop]
    rcases List.mem_cons.mp h with h | h
    · subst h
      cases env.sample t with
      | some stats =>
        exact threadLoop_mono env rest _ t (by rw [alookup_aupsert_self]; rfl)
      | none =>
        exact threadLoop_mono env rest _ t (by rw [alookup_aupsert_self]; rfl)
    · cases env.sample tid with
      | some stats => exact ih _ h
      | none => exact ih _ h

lemma processTick_mono (env : RefreshEnv) (show_processes : Bool) (p0 : ProcessInfo)
    (g : Int) (tr tw : Nat) :
    ThreadsMono p0 (processTick env show_processes p0 g tr tw).1 := by
  intro t h
  rw [processTick_threads]
  exact threadLoop_mono env _ (p0.threads, tr, tw) t h

lemma sampleContribution_aupsert_ne (env : RefreshEnv) (ths : List (Int × ThreadInfo))
    (t x : Int) (v : ThreadInfo) (h : x ≠ t) :
    sampleContribution env (aupsert ths t v) x = sampleContribution env ths x := by
  unfold sampleContribution
  rw [alookup_aupsert_ne ths t x v h]

lemma u64add_lt (a b : Nat) : u64add a b < U64MOD :=
  Nat.mod_lt _ (by norm_num [U64MOD])

lemma threadLoop_r_lt (env : RefreshEnv) (tids : List Int) :
    ∀ acc : List (Int × ThreadInfo) × Nat × Nat,
    acc.2.1 < U64MOD → (threadLoop env tids acc).2.1 < U64MOD := by
  induction tids with
  | nil => intro acc h; exact h
  | cons t rest ih =>
    intro acc h
    obtain ⟨ths, r, w⟩ := acc
    simp only [threadLoop]
    cases hs : env.sample t with
    | some stats => exact ih _ (u64add_lt _ _)
    | none => exact ih _ h

lemma threadLoop_w_lt (env : RefreshEnv) (tids : List Int) :
    ∀ acc : List (Int × ThreadInfo) × Nat × Nat,
    acc.2.2 < U64MOD → (threadLoop env tids acc).2.2 < U64MOD := by
  induction tids with
  | nil => intro acc h; exact h
  | cons t rest ih =>
    intro acc h
    obtain ⟨ths, r, w⟩ := acc
    simp only [threadLoop]
    cases hs : env.sample t with
    | some stats => exact ih _ (u64add_lt _ _)
    | none => exact ih _ h

lemma threadLoop_total_read (env : RefreshEnv) (tids : List Int) :
    ∀ (ths : List (Int × ThreadInfo)) (r w : Nat), tids.Nodup → r < U64MOD →
    (threadLoop env tids (ths, r, w)).2.1
      = (r + (tids.map fun t => (sampleContribution env ths t).1).sum) % U64MOD := by
  induction tids with
  | nil =>
    intro ths r w _ hr
    simp only [threadLoop, List.map_nil, List.sum_nil, Nat.add_zero]
    exact (Nat.mod_eq_of_lt hr).symm
  | cons t rest ih =>
    intro ths r w hnd hr
    obtain ⟨hnotin, hnd'⟩ := List.nodup_cons.mp hnd
    have hcong : ∀ v : ThreadInfo,
        (rest.map fun x => (sampleContribution env (aupsert ths t v) x).1)
          = rest.map fun x => (sampleContribution env ths x).1 := by
      intro v
      refine List.map_congr_left (fun x hx => ?_)
      rw [sampleContribution_aupsert_ne env ths t x v (fun hh => hnotin (hh ▸ hx))]
    simp only [threadLoop, List.map_cons, List.sum_cons]
    cases hs : env.sample t with
    | some stats =>
      rw [ih _ _ _ hnd' (u64add_lt _ _), hcong]
      have hc : (sampleContribution env ths t).1
          = (((alookup ths t).getD (ThreadInfo.new t)).update_stats stats).stats_delta.read_bytes := by
        simp only [sampleContribution, hs]
      rw [hc]
      show ((u64add r _ + _) % U64MOD) = _
      unfold u64add
      rw [Nat.mod_add_mod, Nat.add_assoc]
    | none =>
      rw [ih _ _ _ hnd' hr, hcong]
      have hc : (sampleContribution env ths t).1 = 0 := by
        simp only [sampleContribution, hs]
      rw [hc, Nat.zero_add]

lemma threadLoop_total_write (env : RefreshEnv) (tids : List Int) :
    ∀ (ths : List (Int × ThreadInfo)) (r w : Nat), tids.Nodup → w < U64MOD →
    (threadLoop env tids (ths, r, w)).2.2
      = (w + (tids.map fun t => (sampleContribution env ths t).2).sum) % U64MOD := by
  induction tids with
  | nil =>
    intro ths r w _ hw
    simp only [threadLoop, List.map_nil, List.sum_nil, Nat.add_zero]
    exact (Nat.mod_eq_of_lt hw).symm
  | cons t rest ih =>
    intro ths r w hnd hw
    obtain ⟨hnotin, hnd'⟩ := List.nodup_cons.mp hnd
    have hcong : ∀ v : ThreadInfo,
        (rest.map fun x => (sampleContribution env (aupsert ths t v) x).2)
          = rest.map fun x => (sampleContribution env ths x).2 := by
      intro v
      refine List.map_congr_left (fun x hx => ?_)
      rw [sampleContribution_aupsert_ne env ths t x v (fun hh => hnotin (hh ▸ hx))]
    simp only [threadLoop, List.map_cons, List.sum_cons]
    cases hs : env.sample t with
    | some stats =>
      rw [ih _ _ _ hnd' (u64add_lt _ _), hcong]
      have hc : (sampleContribution env ths t).2
          = (((alookup ths t).getD (ThreadInfo.new t)).update_stats stats).stats_delta.write_bytes := by
        simp only [sampleContribution, hs]
      rw [hc]
      show ((u64add w _ + _) % U64MOD) = _
      unfold u64add
      rw [Nat.mod_add_mod, Nat.add_assoc]
    | none =>
      rw [ih _ _ _ hnd' hw, hcong]
      have hc : (sampleContribution env ths t).2 = 0 := by
        simp only [sampleContribution, hs]
      rw [hc, Nat.zero_add]

lemma procLoop_total_read (env : RefreshEnv) (show_processes : Bool) (st : PLState)
    (gs : List Int) :
    ∀ (procs : List (Int × ProcessInfo)) (tr tw : Nat),
    gs.Nodup → (∀ g ∈ gs, (tidsOf env show_processes g).Nodup) →
    (∀ g ∈ gs, alookup procs g = alookup st.processes g) → tr < U64MOD →
    (procLoop env show_processes gs (procs, tr, tw)).2.1
      = (tr + (gs.map fun g =>
          ((tidsOf env show_processes g).map fun t =>
            (sampleContribution env (threadsOf st g) t).1).sum).sum) % U64MOD := by
  induction gs with
  | nil =>
    intro procs tr tw _ _ _ htr
    simp only [procLoop, List.map_nil, List.sum_nil, Nat.add_zero]
    exact (Nat.mod_eq_of_lt htr).symm
  | cons g rest ih =>
    intro procs tr tw hnd htids hst htr
    obtain ⟨hnotin, hnd'⟩ := List.nodup_cons.mp hnd
    simp only [procLoop, List.map_cons, List.sum_cons]
    have hthr : ((alookup procs g).getD (ProcessInfo.new g)).threads = threadsOf st g := by
      unfold threadsOf
      rw [hst g (List.mem_cons_self _ _)]
    have htick : (processTick env show_processes
          ((alookup procs g).getD (ProcessInfo.new g)) g tr tw).2.1
        = (tr + ((tidsOf env show_processes g).map fun t =>
            (sampleContribution env (threadsOf st g) t).1).sum) % U64MOD := by
      rw [processTick_totals]
      rw [hthr] at *
      exact threadLoop_total_read env _ _ tr tw (htids g (List.mem_cons_self _ _)) htr
    have hlt : (processTick env show_processes
          ((alookup procs g).getD (ProcessInfo.new g)) g tr tw).2.1 < U64MOD := by
      rw [processTick_totals]
      exact threadLoop_r_lt env _ _ htr
    rw [ih _ _ _ hnd' (fun x hx => htids x (List.mem_cons_of_mem _ hx))
        (fun x hx => by
          rw [alookup_aupsert_ne _ _ _ _ (fun hh => hnotin (by rw [← hh]; exact hx))]
          exact hst x (List.mem_cons_of_mem _ hx)) hlt]
    rw [htick, Nat.mod_add_mod, Nat.add_assoc]

lemma procLoop_total_write (env : RefreshEnv) (show_processes : Bool) (st : PLState)
    (gs : List Int) :
    ∀ (procs : List (Int × ProcessInfo)) (tr tw : Nat),
    gs.Nodup → (∀ g ∈ gs, (tidsOf env show_processes g).Nodup) →
    (∀ g ∈ gs, alookup procs g = alookup st.processes g) → tw < U64MOD →
    (procLoop env show_processes gs (procs, tr, tw)).2.2
      = (tw + (gs.map fun g =>
          ((tidsOf env show_processes g).map fun t =>
            (sampleContribution env (threadsOf st g) t).2).sum).sum) % U64MOD := by
  induction gs with
  | nil =>
    intro procs tr tw _ _ _ htw
    simp only [procLoop, List.map_nil, List.sum_nil, Nat.add_zero]
    exact (Nat.mod_eq_of_lt htw).symm
  | cons g rest ih =>
    intro procs tr tw hnd htids hst htw
    obtain ⟨hnotin, hnd'⟩ := List.nodup_cons.mp hnd
    simp only [procLoop, List.map_cons, List.sum_cons]
    have hthr : ((alookup procs g).getD (ProcessInfo.new g)).threads = threadsOf st g := by
      unfold threadsOf
      rw [hst g (List.mem_cons_self _ _)]
    have htick : (processTick env show_processes
          ((alookup procs g).getD (ProcessInfo.new g)) g tr tw).2.2
        = (tw + ((tidsOf env show_processes g).map fun t =>
            (sampleContribution env (threadsOf st g) t).2).sum) % U64MOD := by
      rw [processTick_totals]
      rw [hthr] at *
      exact threadLoop_total_write env _ _ tr tw (htids g (List.mem_cons_self _ _)) htw
    have hlt : (processTick env show_processes
          ((alookup procs g).getD (ProcessInfo.new g)) g tr tw).2.2 < U64MOD := by
      rw [processTick_totals]
      exact threadLoop_w_lt env _ _ htw
    rw [ih _ _ _ hnd' (fun x hx => htids x (List.mem_cons_of_mem _ hx))
        (fun x hx => by
          rw [alookup_aupsert_ne _ _ _ _ (fun hh => hnotin (by rw [← hh]; exact hx))]
          exact hst x (List.mem_cons_of_mem _ hx)) hlt]
    rw [htick, Nat.mod_add_mod, Nat.add_assoc]

/-- `C4`: for every tick (with the `/proc` scan and each task listing free
of duplicate ids, as directory listings are, and the true totals fitting
in `u64`), the published `total_io` equals componentwise the sum over all
sampled threads of their fresh `last_delta` read/write bytes, threads
whose sample failed contributing zero. -/
theorem C4_total_io_sum (env : RefreshEnv) (st : PLState) (show_processes : Bool)
    (h1 : env.procList.Nodup)
    (h2 : ∀ g ∈ env.procList, (tidsOf env show_processes g).Nodup)
    (hr : expectedTotalRead env show_processes st < U64MOD)
    (hw : expectedTotalWrite env show_processes st < U64MOD) :
    (refresh_processes env st show_processes).2.1
      = (expectedTotalRead env show_processes st, expectedTotalWrite env show_processes st) := by
  unfold expectedTotalRead at hr ⊢
  unfold expectedTotalWrite at hw ⊢
  unfold refresh_processes
  simp only
  rw [procLoop_total_read env show_processes st env.procList st.processes 0 0 h1 h2
      (fun _ _ => rfl) (by norm_num [U64MOD])]
  rw [procLoop_total_write env show_processes st env.procList st.processes 0 0 h1 h2
      (fun _ _ => rfl) (by norm_num [U64MOD])]
  rw [Nat.zero_add, Nat.zero_add, Nat.mod_eq_of_lt hr, Nat.mod_eq_of_lt hw]

/-- Witness for `C4_total_io_sum`: TGID 100 with a resampled thread (delta
4096 read bytes), a first-seen thread (zero delta despite a non-zero
sample) and a failed sample; the tick totals are `(4096, 0)`. -/
theorem C4_total_io_sum_witness :
    (refresh_processes envC4 stC4 true).2.1 = (4096, 0) :=
  (C4_total_io_sum envC4 stC4 true (by decide) (by decide) (by decide) (by decide)).trans
    (by decide)

lemma procLoop_entry (env : RefreshEnv) (show_processes : Bool) (gs : List Int) :
    ∀ (procs : List (Int × ProcessInfo)) (tr tw : Nat) (g : Int) (p : ProcessInfo),
    alookup procs g = some p →
    ∃ p', alookup (procLoop env show_processes gs (procs, tr, tw)).1 g = some p'
      ∧ ThreadsMono p p' ∧ (g ∉ gs → p' = p) := by
  induction gs with
  | nil =>
    intro procs tr tw g p h
    exact ⟨p, h, ThreadsMono.refl p, fun _ => rfl⟩
  | cons g0 rest ih =>
    intro procs tr tw g p h
    simp only [procLoop]
    by_cases hg : g = g0
    · subst hg
      have hp0 : (alookup procs g).getD (ProcessInfo.new g) = p := by rw [h]; rfl
      obtain ⟨p', hl, hm, -⟩ := ih
        (aupsert procs g (processTick env show_processes
          ((alookup procs g).getD (ProcessInfo.new g)) g tr tw).1) _ _ g
        ((processTick env show_processes
          ((alookup procs g).getD (ProcessInfo.new g)) g tr tw).1)
        (alookup_aupsert_self _ _ _)
      refine ⟨p', hl, ?_, fun hngs => absurd (List.mem_cons_self _ _) hngs⟩
      have hmt : ThreadsMono p (processTick env show_processes
          ((alookup procs g).getD (ProcessInfo.new g)) g tr tw).1 := by
        rw [← hp0]
        exact processTick_mono env show_processes _ g tr tw
      exact ThreadsMono.trans hmt hm
    · obtain ⟨p', hl, hm, hun⟩ := ih
        (aupsert procs g0 (processTick env show_processes
          ((alookup procs g0).getD (ProcessInfo.new g0)) g0 tr tw).1) _ _ g p
        (by rw [alookup_aupsert_ne _ _ _ _ hg]; exact h)
      exact ⟨p', hl, hm,
        fun hngs => hun (fun hr => hngs (List.mem_cons_of_mem _ hr))⟩

/-- `C10`: a `ProcessInfo` that holds at least one thread is never removed
by a tick: it survives `refresh_processes` with a thread map that
includes every TID it had (no eviction of vanished TIDs), and when its
TGID is no longer listed in `/proc` the entry is carried over completely
unchanged — its last `stats_delta` keeps being republished in every
subsequent snapshot. -/
theorem C10_no_thread_eviction (env : RefreshEnv) (st : PLState) (show_processes : Bool)
    (g : Int) (p : ProcessInfo)
    (hlook : alookup st.processes g = some p) (hne : p.threads ≠ []) :
    ∃ p', alookup (refresh_processes env st show_processes).1.processes g = some p'
      ∧ ThreadsMono p p'
      ∧ p'.threads ≠ []
      ∧ (g ∉ env.procList → p' = p) := by
  unfold refresh_processes
  simp only
  obtain ⟨p', hl, hm, hun⟩ :=
    procLoop_entry env show_processes env.procList st.processes 0 0 g p hlook
  obtain ⟨k, hk⟩ := ne_nil_alookup_isSome p.threads hne
  have hne' : p'.threads ≠ [] := alookup_isSome_ne_nil _ _ (hm k hk)
  refine ⟨p', ?_, hm, hne', hun⟩
  exact alookup_filter (fun q => decide (q.threads ≠ [])) _ g p' hl (by simp [hne'])

/-- Witness for `C10_no_thread_eviction`: exited process 42 (absent from
the `/proc` listing) survives the tick unchanged. -/
theorem C10_no_thread_eviction_witness :
    ∃ p', alookup (refresh_processes envC10 stC10 false).1.processes 42 = some p'
      ∧ ThreadsMono pC10 p'
      ∧ p'.threads ≠ []
      ∧ (42 ∉ envC10.procList → p' = pC10) :=
  C10_no_thread_eviction envC10 stC10 false 42 pC10 rfl (by decide)

lemma threadLoop_single (env : RefreshEnv) (g : Int) (ths : List (Int × ThreadInfo))
    (r w : Nat) (h : ths = [] ∨ ∃ x, ths = [(g, x)]) :
    ∃ th, (threadLoop env [g] (ths, r, w)).1 = [(g, th)] := by
  have haup : ∀ v : ThreadInfo, aupsert ths g v = [(g, v)] := by
    intro v
    rcases h with h | ⟨x, h⟩ <;> subst h
    · rfl
    · simp [aupsert]
  simp only [threadLoop]
  cases hs : env.sample g with
  | some stats => exact ⟨_, by dsimp only; rw [haup]⟩
  | none => exact ⟨_, by dsimp only; rw [haup]⟩

lemma processTick_single (env : RefreshEnv) (p0 : ProcessInfo) (g : Int) (tr tw : Nat)
    (h : p0.threads = [] ∨ ∃ x, p0.threads = [(g, x)]) :
    ∃ th, (processTick env false p0 g tr tw).1.threads = [(g, th)] := by
  rw [processTick_threads]
  exact threadLoop_single env g p0.threads tr tw h

lemma singleton_processTick (env : RefreshEnv) (procs : List (Int × ProcessInfo))
    (hinv : SingletonThreads procs) (g : Int) (tr tw : Nat) :
    ∃ th, (processTick env false ((alookup procs g).getD (ProcessInfo.new g)) g tr tw).1.threads
      = [(g, th)] := by
  apply processTick_single
  cases hl : alookup procs g with
  | none => exact Or.inl rfl
  | some p =>
    refine Or.inr ?_
    obtain ⟨th, hth⟩ := hinv (g, p) (alookup_mem _ _ _ hl)
    exact ⟨th, by simpa using hth⟩

lemma SingletonThreads_aupsert (procs : List (Int × ProcessInfo))
    (hinv : SingletonThreads procs) (g : Int) (p : ProcessInfo)
    (hp : ∃ th, p.threads = [(g, th)]) :
    SingletonThreads (aupsert procs g p) := by
  intro kv hkv
  rcases mem_aupsert _ _ _ _ hkv with h | h
  · subst h
    exact hp
  · exact hinv kv h

lemma SingletonThreads_filter (procs : List (Int × ProcessInfo))
    (hinv : SingletonThreads procs) (f : Int × ProcessInfo → Bool) :
    SingletonThreads (procs.filter f) :=
  fun kv hkv => hinv kv (List.mem_of_mem_filter hkv)

lemma procLoop_singleton (env : RefreshEnv) (gs : List Int) :
    ∀ (procs : List (Int × ProcessInfo)) (tr tw : Nat), SingletonThreads procs →
    SingletonThreads (procLoop env false gs (procs, tr, tw)).1 := by
  induction gs with
  | nil =>
    intro procs _ _ h
    exact h
  | cons g rest ih =>
    intro procs tr tw hinv
    simp only [procLoop]
    exact ih _ _ _
      (SingletonThreads_aupsert _ hinv _ _ (singleton_processTick env procs hinv g _ _))

lemma procLoop_good_preserved (env : RefreshEnv) (gs : List Int) :
    ∀ (procs : List (Int × ProcessInfo)) (tr tw : Nat) (g : Int),
    SingletonThreads procs → ThreadModeGood env procs g →
    ThreadModeGood env (procLoop env false gs (procs, tr, tw)).1 g := by
  induction gs with
  | nil =>
    intro procs _ _ g _ h
    exact h
  | cons g0 rest ih =>
    intro procs tr tw g hinv hgood
    simp only [procLoop]
    refine ih _ _ _ g
      (SingletonThreads_aupsert _ hinv _ _ (singleton_processTick env procs hinv g0 _ _)) ?_
    by_cases hg : g = g0
    · subst hg
      exact ⟨_, alookup_aupsert_self _ _ _, singleton_processTick env procs hinv g _ _,
        fun t ht => processTick_pid env false _ g _ _ t ht⟩
    · obtain ⟨p, hl, hsing, hpid⟩ := hgood
      exact ⟨p, by rw [alookup_aupsert_ne _ _ _ _ hg]; exact hl, hsing, hpid⟩

lemma procLoop_good_mem (env : RefreshEnv) (gs : List Int) :
    ∀ (procs : List (Int × ProcessInfo)) (tr tw : Nat) (g : Int),
    SingletonThreads procs → g ∈ gs →
    ThreadModeGood env (procLoop env false gs (procs, tr, tw)).1 g := by
  induction gs with
  | nil =>
    intro _ _ _ _ _ h
    simp at h
  | cons g0 rest ih =>
    intro procs tr tw g hinv hmem
    by_cases hg : g = g0
    · subst hg
      simp only [procLoop]
      refine procLoop_good_preserved env rest _ _ _ g
        (SingletonThreads_aupsert _ hinv _ _ (singleton_processTick env procs hinv g _ _)) ?_
      exact ⟨_, alookup_aupsert_self _ _ _, singleton_processTick env procs hinv g _ _,
        fun t ht => processTick_pid env false _ g _ _ t ht⟩
    · rcases List.mem_cons.mp hmem with h | h
      · exact absurd h hg
      · simp only [procLoop]
        exact ih _ _ _ g
          (SingletonThreads_aupsert _ hinv _ _ (singleton_processTick env procs hinv g0 _ _)) h

lemma procLoop_present_preserved (env : RefreshEnv) (show_processes : Bool) (gs : List Int)
    (procs : List (Int × ProcessInfo)) (tr tw : Nat) (g t : Int)
    (h : ∃ p, alookup procs g = some p ∧ (alookup p.threads t).isSome) :
    ∃ p', alookup (procLoop env show_processes gs (procs, tr, tw)).1 g = some p'
      ∧ (alookup p'.threads t).isSome := by
  obtain ⟨p, hl, ht⟩ := h
  obtain ⟨p', hl', hm, -⟩ := procLoop_entry env show_processes gs procs tr tw g p hl
  exact ⟨p', hl', hm t ht⟩

lemma procLoop_present_mem (env : RefreshEnv) (gs : List Int) :
    ∀ (procs : List (Int × ProcessInfo)) (tr tw : Nat) (g : Int) (L : List Int) (t : Int),
    g ∈ gs → env.taskDir g = some L → t ∈ L →
    ∃ p, alookup (procLoop env true gs (procs, tr, tw)).1 g = some p
      ∧ (alookup p.threads t).isSome := by
  induction gs with
  | nil =>
    intro _ _ _ _ _ _ h
    simp at h
  | cons g0 rest ih =>
    intro procs tr tw g L t hmem hdir ht
    by_cases hg : g = g0
    · subst hg
      simp only [procLoop]
      apply procLoop_present_preserved
      refine ⟨_, alookup_aupsert_self _ _ _, ?_⟩
      rw [processTick_threads]
      apply threadLoop_mem
      unfold tidsOf
      rw [if_pos rfl, hdir]
      exact ht
    · rcases List.mem_cons.mp hmem with h | h
      · exact absurd h hg
      · simp only [procLoop]
        exact ih _ _ _ g L t h hdir ht

/-- `C2`: in thread mode (`show_processes = false`) every stored entry
owns exactly one thread keyed by its own id — each discovered id becomes
its own entry with `pid` set to the `Tgid` reported by its status file —
and in process mode (`show_processes = true`) every TID enumerated from
`/proc/<tgid>/task` becomes a thread of the single entry keyed by that
TGID. -/
theorem C2_mode_keying (env : RefreshEnv) (st : PLState) :
    (SingletonThreads st.processes →
        SingletonThreads (refresh_processes env st false).1.processes)
    ∧ (SingletonThreads st.processes → ∀ g ∈ env.procList,
        ∃ p, alookup (refresh_processes env st false).1.processes g = some p
          ∧ (∃ th, p.threads = [(g, th)])
          ∧ ∀ t, env.statusTgid g = some t → p.pid = t)
    ∧ (∀ g ∈ env.procList, ∀ L : List Int, env.taskDir g = some L → ∀ t ∈ L,
        ∃ p, alookup (refresh_processes env st true).1.processes g = some p
          ∧ (alookup p.threads t).isSome) := by
  refine ⟨?_, ?_, ?_⟩
  · intro hinv
    unfold refresh_processes
    simp only
    exact SingletonThreads_filter _ (procLoop_singleton env env.procList st.processes 0 0 hinv) _
  · intro hinv g hg
    unfold refresh_processes
    simp only
    obtain ⟨p, hl, hsing, hpid⟩ :=
      procLoop_good_mem env env.procList st.processes 0 0 g hinv hg
    refine ⟨p, ?_, hsing, hpid⟩
    obtain ⟨th, hth⟩ := hsing
    exact alookup_filter (fun q => decide (q.threads ≠ [])) _ g p hl
      (by simp [hth])
  · intro g hg L hdir t ht
    unfold refresh_processes
    simp only
    obtain ⟨p, hl, hsome⟩ :=
      procLoop_present_mem env env.procList st.processes 0 0 g L t hg hdir ht
    refine ⟨p, ?_, hsome⟩
    exact alookup_filter (fun q => decide (q.threads ≠ [])) _ g p hl
      (by simp [alookup_isSome_ne_nil _ _ hsome])

/-- Witness for `C2_mode_keying` on a concrete scan of TGIDs 5 and 6 from
the empty state: thread mode yields singleton entries with `pid` from the
status `Tgid`; process mode folds TID 7 into entry 5. -/
theorem C2_mode_keying_witness :
    (SingletonThreads (refresh_processes envC2 stC2 false).1.processes)
    ∧ (∃ p, alookup (refresh_processes envC2 stC2 false).1.processes 5 = some p
        ∧ (∃ th, p.threads = [(5, th)])
        ∧ ∀ t, envC2.statusTgid 5 = some t → p.pid = t)
    ∧ (∃ p, alookup (refresh_processes envC2 stC2 true).1.processes 5 = some p
        ∧ (alookup p.threads 7).isSome) := by
  refine ⟨?_, ?_, ?_⟩
  · exact (C2_mode_keying envC2 stC2).1 (by intro kv h; simp [stC2] at h)
  · exact (C2_mode_keying envC2 stC2).2.1 (by intro kv h; simp [stC2] at h) 5 (by decide)
  · exact (C2_mode_keying envC2 stC2).2.2 5 (by decide) [5, 7] (by decide) 7 (by decide)

end Iotop
